import Mathlib

/-! # Verification of the Gmail inbox-normalization core (`src/main.py`)

This file gives a shallow embedding in Lean 4 of the pure core of
`src/main.py`:

* `_decode_part` (the spec's **PartDecoder**): URL-safe base64 decoding via
  Python's `base64.urlsafe_b64decode`, followed by `bytes.decode("utf-8",
  errors="ignore")`.  Python's decoder is CPython's `binascii.a2b_base64`
  in non-strict mode, which we model faithfully (invalid characters are
  discarded, `=` padding is handled positionally, and wrong padding raises
  `binascii.Error`); the error is modelled with `Except`.
* `extract_body_from_payload` (the spec's **BodyExtractor**): the two-level
  traversal of a Gmail `payload` dict collecting `text/plain` and
  `text/html` parts and the text-over-html selection policy.
* `fetch_unread_emails` (the spec's **InboxFetcher**): the header fold with
  its defaults and the per-identifier record assembly, over an abstract
  mailbox collaborator.

Bytes are modelled as `Nat` (with explicit `< 256` bounds where needed),
Python strings as Lean `String`/`List Char`, absent dictionary entries as
`Option`, and raised exceptions as `Except String`.
-/

namespace GmailCore

/-! ## Bytes and UTF-8

Python's `str.encode("utf-8")` / `bytes.decode("utf-8", errors="ignore")`.
A byte is a `Nat` below 256.  `errors="ignore"` drops invalid sequences:
CPython skips the maximal invalid subpart and continues, which is what the
decoder below does; on valid UTF-8 input the two coincide exactly.
-/

/-- UTF-8 encoding of one Unicode scalar value (Python `chr(n).encode("utf-8")`). -/
def utf8EncodeChar (c : Char) : List Nat :=
  let n := c.toNat
  if n < 0x80 then [n]
  else if n < 0x800 then [0xC0 + n / 64, 0x80 + n % 64]
  else if n < 0x10000 then [0xE0 + n / 4096, 0x80 + n / 64 % 64, 0x80 + n % 64]
  else [0xF0 + n / 262144, 0x80 + n / 4096 % 64, 0x80 + n / 64 % 64, 0x80 + n % 64]

/-- UTF-8 encoding of a string, as a byte list (Python `s.encode("utf-8")`). -/
def utf8Encode (l : List Char) : List Nat :=
  l.flatMap utf8EncodeChar

/-- Decoder state for the UTF-8 decoder: `need` continuation bytes still
expected (`0` = expecting a start byte), `val` the code-point bits
accumulated so far, and `lo`/`hi` the allowed range for the next
continuation byte (the first continuation byte after `E0`/`ED`/`F0`/`F4`
has a restricted range, which is how overlong forms, surrogates and values
above `0x10FFFF` are rejected). -/
structure Utf8State where
  need : Nat
  val : Nat
  lo : Nat
  hi : Nat
deriving Repr, DecidableEq

/-- Handle one byte in start position: ASCII is emitted directly, a lead
byte opens a multi-byte sequence, and an invalid start byte
(continuation bytes in start position, `C0`/`C1`, `F5`–`FF`) is dropped. -/
def utf8StepStart (b : Nat) : List Char × Utf8State :=
  if b < 0x80 then ([Char.ofNat b], ⟨0, 0, 0, 0⟩)
  else if b < 0xC2 then ([], ⟨0, 0, 0, 0⟩)
  else if b < 0xE0 then ([], ⟨1, b - 0xC0, 0x80, 0xBF⟩)
  else if b < 0xF0 then
    ([], ⟨2, b - 0xE0, if b = 0xE0 then 0xA0 else 0x80, if b = 0xED then 0x9F else 0xBF⟩)
  else if b < 0xF5 then
    ([], ⟨3, b - 0xF0, if b = 0xF0 then 0x90 else 0x80, if b = 0xF4 then 0x8F else 0xBF⟩)
  else ([], ⟨0, 0, 0, 0⟩)

/-- Handle one byte: an expected continuation byte extends (and possibly
completes) the current sequence; anything else drops the maximal invalid
subpart accumulated so far and reprocesses the byte in start position —
CPython's `errors="ignore"` behavior. -/
def utf8Step (st : Utf8State) (b : Nat) : List Char × Utf8State :=
  if st.need = 0 then utf8StepStart b
  else if st.lo ≤ b ∧ b ≤ st.hi then
    let v := st.val * 64 + (b - 0x80)
    if st.need = 1 then ([Char.ofNat v], ⟨0, 0, 0, 0⟩)
    else ([], ⟨st.need - 1, v, 0x80, 0xBF⟩)
  else utf8StepStart b

/-- Run the UTF-8 decoder from a given state; an incomplete sequence at the
end of input is dropped (as `errors="ignore"` does). -/
def utf8DecodeIgnoreAux (st : Utf8State) : List Nat → List Char
  | [] => []
  | b :: bs =>
    let step := utf8Step st b
    step.1 ++ utf8DecodeIgnoreAux step.2 bs

/-- Model of Python `bytes.decode("utf-8", errors="ignore")`: decode valid
UTF-8 sequences (rejecting overlong forms, surrogates and values above
`0x10FFFF`, as CPython does) and silently drop invalid bytes. -/
def utf8DecodeIgnore (l : List Nat) : List Char :=
  utf8DecodeIgnoreAux ⟨0, 0, 0, 0⟩ l

/-! ## Base64 (Python `base64.urlsafe_b64decode` / `urlsafe_b64encode`) -/

/-- Value of a character in the standard base64 alphabet
(CPython's `table_a2b_base64`), `none` for a non-alphabet character. -/
def b64CharVal (c : Char) : Option Nat :=
  if 'A' ≤ c ∧ c ≤ 'Z' then some (c.toNat - 65)
  else if 'a' ≤ c ∧ c ≤ 'z' then some (c.toNat - 71)
  else if '0' ≤ c ∧ c ≤ '9' then some (c.toNat + 4)
  else if c = '+' then some 62
  else if c = '/' then some 63
  else none

/-- Character of a 6-bit value in the standard base64 alphabet. -/
def b64Char (n : Nat) : Char :=
  if n < 26 then Char.ofNat (65 + n)
  else if n < 52 then Char.ofNat (71 + n)
  else if n < 62 then Char.ofNat (n - 4)
  else if n = 62 then '+'
  else '/'

/-- The `-→ +`, `_ → /` translation `base64.urlsafe_b64decode` applies
before decoding. -/
def urlsafeToStd (c : Char) : Char :=
  if c = '-' then '+' else if c = '_' then '/' else c

/-- The `+ → -`, `/ → _` translation `base64.urlsafe_b64encode` applies
after encoding. -/
def stdToUrlsafe (c : Char) : Char :=
  if c = '+' then '-' else if c = '/' then '_' else c

/-- CPython's `binascii.a2b_base64` main loop in non-strict mode (the mode
`base64.b64decode` uses).  State: `quadPos` (position in the current group
of four digits), `leftchar` (bits carried over), `pads` (consecutive `=`
seen at `quadPos ≥ 2`), `out` (decoded bytes, reversed).  Non-alphabet
characters are discarded; `=` at `quadPos ≥ 2` counts towards padding and
completes the group (ending decoding); leftover digits at the end raise
`binascii.Error` ("Incorrect padding" / "Invalid base64-encoded string"). -/
def a2bBase64 : List Char → Nat → Nat → Nat → List Nat → Except String (List Nat)
  | [], quadPos, _, _, out =>
    if quadPos = 0 then .ok out.reverse
    else if quadPos = 1 then .error "Invalid base64-encoded string"
    else .error "Incorrect padding"
  | c :: rest, quadPos, leftchar, pads, out =>
    if c = '=' then
      if 2 ≤ quadPos then
        if 4 ≤ quadPos + (pads + 1) then .ok out.reverse
        else a2bBase64 rest quadPos leftchar (pads + 1) out
      else a2bBase64 rest quadPos leftchar pads out
    else
      match b64CharVal c with
      | none => a2bBase64 rest quadPos leftchar pads out
      | some v =>
        match quadPos with
        | 0 => a2bBase64 rest 1 v 0 out
        | 1 => a2bBase64 rest 2 (v % 16) 0 ((leftchar * 4 + v / 16) :: out)
        | 2 => a2bBase64 rest 3 (v % 4) 0 ((leftchar * 16 + v / 4) :: out)
        | _ => a2bBase64 rest 0 0 0 ((leftchar * 64 + v) :: out)

/-- `base64.urlsafe_b64decode` on a character list: translate `-`/`_` to
`+`/`/`, then run the `a2b_base64` loop from the initial state. -/
def urlsafeB64Decode (s : List Char) : Except String (List Nat) :=
  a2bBase64 (s.map urlsafeToStd) 0 0 0 []

/-- Standard base64 encoding of a byte list, with `=` padding
(`binascii.b2a_base64`). -/
def b64EncodeBytes : List Nat → List Char
  | b1 :: b2 :: b3 :: rest =>
      b64Char (b1 / 4) :: b64Char (b1 % 4 * 16 + b2 / 16) ::
      b64Char (b2 % 16 * 4 + b3 / 64) :: b64Char (b3 % 64) :: b64EncodeBytes rest
  | [b1, b2] => [b64Char (b1 / 4), b64Char (b1 % 4 * 16 + b2 / 16), b64Char (b2 % 16 * 4), '=']
  | [b1] => [b64Char (b1 / 4), b64Char (b1 % 4 * 16), '=', '=']
  | [] => []

/-- `base64.urlsafe_b64encode` on a byte list. -/
def urlsafeB64Encode (bs : List Nat) : List Char :=
  (b64EncodeBytes bs).map stdToUrlsafe

/-! ## PartDecoder (`_decode_part`, `src/main.py` lines 43–47) -/

/-- `_decode_part` from `src/main.py`:

```python
def _decode_part(data: str) -> str:
    if not data:
        return ""
    decoded = base64.urlsafe_b64decode(data.encode("utf-8"))
    return decoded.decode("utf-8", errors="ignore")
```

`base64.urlsafe_b64decode` can raise `binascii.Error`, which this function
does not catch; the raised exception is modelled as `Except.error`.
(`data.encode("utf-8")` only widens non-ASCII characters into bytes that
the base64 loop discards, so decoding the character list directly is
faithful.) -/
def decode_part (data : String) : Except String String :=
  if data = "" then .ok ""
  else match urlsafeB64Decode data.toList with
    | .error e => .error e
    | .ok bytes => .ok (String.mk (utf8DecodeIgnore bytes))

/-! ## The payload tree (the spec's `ContentPart`)

A Gmail API `payload` dict as `src/main.py` reads it: `mimeType` (read with
`part.get("mimeType", "")`), `body.data` (read with
`part.get("body", {}).get("data")`, absent modelled as `none`), `parts`
(read with `part.get("parts", []) or []`), and `headers` (read with
`payload.get("headers", [])`, used only at the root by
`fetch_unread_emails`).
-/

/-- A message header dict: `{"name": ..., "value": ...}`.  The code reads
both keys with `.get`, so each is optional. -/
structure Header where
  name : Option String
  value : Option String
deriving Repr, DecidableEq

/-- A node of the content-part tree (the spec's `ContentPart`). -/
inductive Payload where
  | mk : Option String → Option String → List Payload → List Header → Payload
deriving Repr

/-- `part.get("mimeType", "")` reads this field (before the `getD ""`). -/
def Payload.mimeType : Payload → Option String
  | .mk m _ _ _ => m

/-- `part.get("body", {}).get("data")`. -/
def Payload.data : Payload → Option String
  | .mk _ d _ _ => d

/-- `part.get("parts", []) or []`. -/
def Payload.parts : Payload → List Payload
  | .mk _ _ ps _ => ps

/-- `payload.get("headers", [])`. -/
def Payload.headers : Payload → List Header
  | .mk _ _ _ hs => hs

/-- Python truthiness of an optional string (`if body:` / `if data:`):
false for an absent value and for the empty string. -/
def truthy : Option String → Bool
  | none => false
  | some s => !(s = "")

/-! ## BodyExtractor (`extract_body_from_payload`, `src/main.py` lines 50–82) -/

/-- One iteration step of the bucket-filling loops in
`extract_body_from_payload`: given a part's `mimeType` (already defaulted
to `""`) and its `body.data`, append the decoded text to `text_parts`
(exact MIME type `"text/plain"`) or `html_parts` (exact `"text/html"`)
when the data is truthy; other MIME types are ignored and `_decode_part`
is not called on them.  A `binascii.Error` raised by `_decode_part`
propagates. -/
def addPart (mime : String) (data : Option String) (tp hp : List String) :
    Except String (List String × List String) :=
  if truthy data then
    if mime = "text/plain" then
      match decode_part (data.getD "") with
      | .error e => .error e
      | .ok t => .ok (tp ++ [t], hp)
    else if mime = "text/html" then
      match decode_part (data.getD "") with
      | .error e => .error e
      | .ok t => .ok (tp, hp ++ [t])
    else .ok (tp, hp)
  else .ok (tp, hp)

/-- The inner loop `for sub in part.get("parts", []) or []` of
`extract_body_from_payload`: bucket each sub-part's own data; sub-parts'
children are never visited. -/
def collectSubs (subs : List Payload) (tp hp : List String) :
    Except String (List String × List String) :=
  match subs with
  | [] => .ok (tp, hp)
  | sub :: rest =>
    match addPart (sub.mimeType.getD "") sub.data tp hp with
    | .error e => .error e
    | .ok (tp1, hp1) => collectSubs rest tp1 hp1

/-- The outer loop `for part in parts` of `extract_body_from_payload`:
bucket the part's own data, then run the inner loop over the part's direct
children, then continue with the remaining parts. -/
def collectLoop (parts : List Payload) (tp hp : List String) :
    Except String (List String × List String) :=
  match parts with
  | [] => .ok (tp, hp)
  | part :: rest =>
    match addPart (part.mimeType.getD "") part.data tp hp with
    | .error e => .error e
    | .ok (tp1, hp1) =>
      match collectSubs part.parts tp1 hp1 with
      | .error e => .error e
      | .ok (tp2, hp2) => collectLoop rest tp2 hp2

/-- Model of `BeautifulSoup(html, "html.parser").get_text()` as used on
`html_parts[0]`: remove `<...>` markup tags and keep the text between
them.  (The library's entity and script/style handling is abstracted to
tag removal; no claim depends on the exact stripped text.) -/
def stripHtmlAux : List Char → Bool → List Char
  | [], _ => []
  | c :: rest, inTag =>
    if inTag then
      if c = '>' then stripHtmlAux rest false else stripHtmlAux rest true
    else
      if c = '<' then stripHtmlAux rest true else c :: stripHtmlAux rest false

/-- String-level wrapper for `stripHtmlAux`. -/
def stripHtml (s : String) : String :=
  String.mk (stripHtmlAux s.toList false)

/-- `extract_body_from_payload` from `src/main.py`:

```python
def extract_body_from_payload(payload):
    body = payload.get("body", {}).get("data")
    if body:
        return _decode_part(body)
    parts = payload.get("parts", []) or []
    text_parts, html_parts = [], []
    for part in parts: ...            # collectLoop
    if text_parts:
        return "\n\n".join(text_parts)
    if html_parts:
        return BeautifulSoup(html_parts[0], "html.parser").get_text()
    return "(No readable body found)"
```
-/
def extract_body_from_payload (payload : Payload) : Except String String :=
  if truthy payload.data then decode_part (payload.data.getD "")
  else
    match collectLoop payload.parts [] [] with
    | .error e => .error e
    | .ok (tp, hp) =>
      match tp, hp with
      | t :: ts, _ => .ok (String.intercalate "\n\n" (t :: ts))
      | [], h :: _ => .ok (stripHtml h)
      | [], [] => .ok "(No readable body found)"

/-! ## InboxFetcher (`fetch_unread_emails`, `src/main.py` lines 85–116) -/

/-- A listed message stub `m` from
`service.users().messages().list(...)`; the code reads `m["id"]`. -/
structure MsgStub where
  id : String
deriving Repr, DecidableEq

/-- The relevant parts of a `service.users().messages().get(...)` response
`mdata`: the code reads `mdata.get("payload", {})` and
`mdata.get("snippet", "")`. -/
structure MsgData where
  payload : Option Payload
  snippet : Option String
deriving Repr

/-- The abstract mailbox collaborator: `listUnread k` models
`service.users().messages().list(userId="me", labelIds=["UNREAD"],
maxResults=k).execute().get("messages", [])`, and `getMessage i` models
`service.users().messages().get(userId="me", id=i, format="full")
.execute()`. -/
structure GmailService where
  listUnread : Nat → List MsgStub
  getMessage : String → MsgData

/-- The produced record (the spec's `NormalizedMessage`). -/
structure EmailRec where
  id : String
  subject : String
  sender : String
  body : String
  snippet : String
deriving Repr, DecidableEq

/-- Model of Python `str.lower()` restricted to ASCII (header names are
ASCII; `"Subject"`/`"From"` contain no characters affected by full
Unicode case mapping). -/
def pyLower (s : String) : String :=
  String.mk (s.toList.map Char.toLower)

/-- The header loop of `fetch_unread_emails`:

```python
for h in headers:
    name = h.get("name", "").lower()
    if name == "subject":
        subject = h.get("value", subject)
    elif name == "from":
        sender = h.get("value", sender)
```

`subject`/`sender` are the running values (initially the defaults).
Python's `str.lower()` is modelled by ASCII lowercasing (`pyLower`);
header names are ASCII. -/
def headerFold (headers : List Header) (subject sender : String) : String × String :=
  match headers with
  | [] => (subject, sender)
  | h :: rest =>
    let name := pyLower (h.name.getD "")
    if name = "subject" then headerFold rest (h.value.getD subject) sender
    else if name = "from" then headerFold rest subject (h.value.getD sender)
    else headerFold rest subject sender

/-- Lines 94–103 of `src/main.py`: header extraction with its defaults. -/
def extractHeaders (headers : List Header) : String × String :=
  headerFold headers "(No Subject)" "(Unknown Sender)"

/-- The per-identifier body of the loop in `fetch_unread_emails`: fetch the
full message (`mdata`), take its payload (`mdata.get("payload", {})`), fold
the headers, extract the body (whose `binascii.Error` would propagate), and
assemble the record.  The Python locals `mdata`/`payload` name pure
expressions and are inlined here. -/
def buildRecord (service : GmailService) (m : MsgStub) : Except String EmailRec :=
  match extract_body_from_payload
      ((service.getMessage m.id).payload.getD (Payload.mk none none [] [])) with
  | .error e => .error e
  | .ok body =>
    .ok { id := m.id
          subject :=
            (extractHeaders
              ((service.getMessage m.id).payload.getD (Payload.mk none none [] [])).headers).1
          sender :=
            (extractHeaders
              ((service.getMessage m.id).payload.getD (Payload.mk none none [] [])).headers).2
          body := body
          snippet := (service.getMessage m.id).snippet.getD "" }

/-- `fetch_unread_emails` from `src/main.py`: list up to `max_results`
unread stubs, then build one record per stub in listing order. -/
def fetch_unread_emails (service : GmailService) (max_results : Nat) :
    Except String (List EmailRec) :=
  go (service.listUnread max_results)
where
  /-- The `for m in msgs` loop accumulating `results`. -/
  go : List MsgStub → Except String (List EmailRec)
    | [] => .ok []
    | m :: rest =>
      match buildRecord service m with
      | .error e => .error e
      | .ok r =>
        match go rest with
        | .error e => .error e
        | .ok rs => .ok (r :: rs)

/-! ## Auxiliary definitions used by the statements below -/

/-- Characters that influence the base64 decoding loop: alphabet characters
(after the URL-safe translation) and the padding character; every other
character is discarded by `a2bBase64`. -/
def isB64Relevant (c : Char) : Bool :=
  (b64CharVal (urlsafeToStd c)).isSome || c == '='

/-- The values of the headers whose name matches `key` case-insensitively
(headers without a `value` entry act as no-ops in the fold and are
dropped). -/
def headerValuesFor (key : String) (headers : List Header) : List String :=
  headers.filterMap fun h => if pyLower (h.name.getD "") = key then h.value else none

/-- The flattened two-level visit sequence of the extractor's loops: each
top-level part immediately followed by its direct children. -/
def visitOrder (parts : List Payload) : List Payload :=
  parts.flatMap fun p => p :: p.parts

end GmailCore

deriving instance DecidableEq for Except

namespace GmailCore

/-! # Theorems -/

/-- `addPart` with absent data leaves the buckets unchanged. -/
theorem addPart_none (mime : String) (tp hp : List String) :
    addPart mime none tp hp = .ok (tp, hp) := rfl

/-- `collectSubs` over parts that all lack data leaves the buckets
unchanged. -/
theorem collectSubs_of_data_none (subs : List Payload)
    (h : ∀ s ∈ subs, s.data = none) (tp hp : List String) :
    collectSubs subs tp hp = .ok (tp, hp) := by
  induction subs with
  | nil => rfl
  | cons s rest ih =>
    have hs : s.data = none := h s (List.mem_cons_self s rest)
    simp only [collectSubs, hs, addPart_none]
    exact ih fun x hx => h x (List.mem_cons_of_mem s hx)

/-- `collectLoop` over a two-level window that contains no data leaves the
buckets unchanged. -/
theorem collectLoop_of_data_none (parts : List Payload)
    (h1 : ∀ p ∈ parts, p.data = none)
    (h2 : ∀ p ∈ parts, ∀ s ∈ p.parts, s.data = none) (tp hp : List String) :
    collectLoop parts tp hp = .ok (tp, hp) := by
  induction parts with
  | nil => rfl
  | cons p rest ih =>
    have hp1 : p.data = none := h1 p (List.mem_cons_self p rest)
    simp only [collectLoop, hp1, addPart_none]
    rw [collectSubs_of_data_none p.parts (h2 p (List.mem_cons_self p rest)) tp hp]
    exact ih (fun x hx => h1 x (List.mem_cons_of_mem p hx))
      (fun x hx => h2 x (List.mem_cons_of_mem p hx))

/-- C2 (amended): for every `ContentPart` whose direct `encodedData` is
present **and non-empty**, `extract` returns the `PartDecoder` result of
the direct data immediately, ignoring the children (which may be
arbitrary). -/
theorem extract_fast_path (m : Option String) (d : String) (ps : List Payload)
    (hs : List Header) (hd : d ≠ "") :
    extract_body_from_payload (Payload.mk m (some d) ps hs) = decode_part d := by
  unfold extract_body_from_payload
  simp [Payload.data, truthy, hd]

/-- Witness for `extract_fast_path` at a payload with direct data and a
non-empty child list. -/
theorem extract_fast_path_witness :
    ("aGk=" : String) ≠ "" ∧
    extract_body_from_payload
      (Payload.mk none (some "aGk=")
        [Payload.mk (some "text/plain") (some "Yg==") [] []] []) = decode_part "aGk=" :=
  ⟨by decide,
   extract_fast_path none "aGk=" [Payload.mk (some "text/plain") (some "Yg==") [] []] []
     (by decide)⟩

/-- C2 (counterexample): a `ContentPart` whose direct `encodedData` is
present but empty does **not** take the fast path: Python's `if body:` is
false for the empty string, so the children are traversed instead of
returning the decoded direct data (which would be `""`). -/
theorem extract_fast_path_cex :
    extract_body_from_payload
      (Payload.mk none (some "")
        [Payload.mk (some "text/plain") (some "aGk=") [] []] []) = .ok "hi" ∧
    decode_part "" = .ok "" :=
  ⟨rfl, rfl⟩

/-- C4: the extractor never looks below the second level: if the root has
no (truthy) direct data and no part at depth one or two carries
`encodedData`, the result is the sentinel, whatever lies deeper. -/
theorem extract_depth_cap (p : Payload)
    (hroot : truthy p.data = false)
    (h1 : ∀ q ∈ p.parts, q.data = none)
    (h2 : ∀ q ∈ p.parts, ∀ s ∈ q.parts, s.data = none) :
    extract_body_from_payload p = .ok "(No readable body found)" := by
  unfold extract_body_from_payload
  rw [hroot]
  simp only [Bool.false_eq_true, if_false]
  rw [collectLoop_of_data_none p.parts h1 h2 [] []]

/-- Witness for `extract_depth_cap`: a tree whose only data-bearing part
sits at depth three yields the sentinel. -/
theorem extract_depth_cap_witness :
    extract_body_from_payload
      (Payload.mk (some "multipart/mixed") none
        [Payload.mk (some "multipart/mixed") none
          [Payload.mk (some "multipart/mixed") none
            [Payload.mk (some "text/plain") (some "dGVzdA==") [] []] []] []] []) =
      .ok "(No readable body found)" :=
  extract_depth_cap _ rfl (by decide) (by decide)

/-- C10: below the root there is no fast-path precedence: a depth-one
`text/plain` part with both its own data and a `text/plain` child
contributes its own decoded text **and** its child's decoded text to the
bucket, and `extract` joins both. -/
theorem part_data_and_children_both_collected (d₁ d₂ t₁ t₂ : String)
    (h1 : decode_part d₁ = .ok t₁) (h2 : decode_part d₂ = .ok t₂)
    (hne1 : d₁ ≠ "") (hne2 : d₂ ≠ "") :
    collectLoop
        [Payload.mk (some "text/plain") (some d₁)
          [Payload.mk (some "text/plain") (some d₂) [] []] []] [] [] =
      .ok ([t₁, t₂], []) ∧
    extract_body_from_payload
        (Payload.mk none none
          [Payload.mk (some "text/plain") (some d₁)
            [Payload.mk (some "text/plain") (some d₂) [] []] []] []) =
      .ok (String.intercalate "\n\n" [t₁, t₂]) := by
  have hcol : collectLoop
      [Payload.mk (some "text/plain") (some d₁)
        [Payload.mk (some "text/plain") (some d₂) [] []] []] [] [] =
      .ok ([t₁, t₂], []) := by
    simp only [collectLoop, collectSubs, addPart, Payload.mimeType, Payload.data,
      Payload.parts, truthy, Option.getD_some]
    simp [hne1, hne2, h1, h2]
  refine ⟨hcol, ?_⟩
  unfold extract_body_from_payload
  simp only [Payload.data, truthy, Payload.parts]
  rw [hcol]
  simp

/-- Witness for `part_data_and_children_both_collected` at concrete base64
payloads decoding to `"hi"` and `"b"`. -/
theorem part_data_and_children_both_collected_witness :
    decode_part "aGk=" = .ok "hi" ∧ decode_part "Yg==" = .ok "b" ∧
    extract_body_from_payload
        (Payload.mk none none
          [Payload.mk (some "text/plain") (some "aGk=")
            [Payload.mk (some "text/plain") (some "Yg==") [] []] []] []) =
      .ok (String.intercalate "\n\n" ["hi", "b"]) :=
  ⟨rfl, rfl,
   (part_data_and_children_both_collected "aGk=" "Yg==" "hi" "b" rfl rfl
     (by decide) (by decide)).2⟩

/-- `buildRecord` preserves the listed identifier. -/
theorem buildRecord_id (service : GmailService) (m : MsgStub) (r : EmailRec)
    (h : buildRecord service m = .ok r) : r.id = m.id := by
  unfold buildRecord at h
  cases hx : extract_body_from_payload
      ((service.getMessage m.id).payload.getD (Payload.mk none none [] [])) with
  | error e => rw [hx] at h; cases h
  | ok body =>
    rw [hx] at h
    cases h
    rfl

/-- The fetch loop produces records whose identifiers are exactly the
listed identifiers, in order. -/
theorem fetch_go_ids (service : GmailService) (l : List MsgStub)
    (res : List EmailRec) (h : fetch_unread_emails.go service l = .ok res) :
    res.map EmailRec.id = l.map MsgStub.id := by
  induction l generalizing res with
  | nil =>
    unfold fetch_unread_emails.go at h
    cases h
    rfl
  | cons m rest ih =>
    unfold fetch_unread_emails.go at h
    cases hb : buildRecord service m with
    | error e => rw [hb] at h; cases h
    | ok r =>
      rw [hb] at h
      cases hg : fetch_unread_emails.go service rest with
      | error e => rw [hg] at h; cases h
      | ok rs =>
        rw [hg] at h
        cases h
        simp only [List.map_cons]
        rw [buildRecord_id service m r hb, ih rs hg]

/-- C7: when `fetch_unread_emails` succeeds it returns exactly one record
per identifier the mailbox collaborator listed, in listing order (so a
request for 5 against a collaborator reporting 3 yields 3 records). -/
theorem fetch_one_record_per_id (service : GmailService) (k : Nat)
    (res : List EmailRec) (h : fetch_unread_emails service k = .ok res) :
    res.map EmailRec.id = (service.listUnread k).map MsgStub.id ∧
    res.length = (service.listUnread k).length := by
  unfold fetch_unread_emails at h
  have hids := fetch_go_ids service (service.listUnread k) res h
  refine ⟨hids, ?_⟩
  have := congrArg List.length hids
  simpa using this

/-- A concrete mailbox collaborator reporting three unread messages
(whatever limit is requested). -/
def svcThree : GmailService :=
  ⟨fun _ => [⟨"m1"⟩, ⟨"m2"⟩, ⟨"m3"⟩],
   fun i => ⟨some (Payload.mk none none [] [⟨some "Subject", some i⟩]), some "snip"⟩⟩

/-- Witness for `fetch_one_record_per_id`: `fetch_unread_emails svcThree 5`
returns exactly three records carrying `"m1"`, `"m2"`, `"m3"` in order. -/
theorem fetch_one_record_per_id_witness :
    fetch_unread_emails svcThree 5 =
      .ok [⟨"m1", "m1", "(Unknown Sender)", "(No readable body found)", "snip"⟩,
           ⟨"m2", "m2", "(Unknown Sender)", "(No readable body found)", "snip"⟩,
           ⟨"m3", "m3", "(Unknown Sender)", "(No readable body found)", "snip"⟩] ∧
    ([⟨"m1", "m1", "(Unknown Sender)", "(No readable body found)", "snip"⟩,
      ⟨"m2", "m2", "(Unknown Sender)", "(No readable body found)", "snip"⟩,
      ⟨"m3", "m3", "(Unknown Sender)", "(No readable body found)", "snip"⟩] :
        List EmailRec).map EmailRec.id = (svcThree.listUnread 5).map MsgStub.id ∧
    ([⟨"m1", "m1", "(Unknown Sender)", "(No readable body found)", "snip"⟩,
      ⟨"m2", "m2", "(Unknown Sender)", "(No readable body found)", "snip"⟩,
      ⟨"m3", "m3", "(Unknown Sender)", "(No readable body found)", "snip"⟩] :
        List EmailRec).length = (svcThree.listUnread 5).length :=
  ⟨rfl, fetch_one_record_per_id svcThree 5 _ rfl⟩

/-- C3: with no (truthy) direct root data, the selection policy is: all
text parts joined with a blank line if any exist; otherwise the stripped
first html part (later html parts are discarded); otherwise the
sentinel. -/
theorem extract_selection_policy (p : Payload) (tp hp : List String)
    (hroot : truthy p.data = false)
    (hcol : collectLoop p.parts [] [] = .ok (tp, hp)) :
    (tp ≠ [] → extract_body_from_payload p = .ok (String.intercalate "\n\n" tp)) ∧
    (tp = [] → hp ≠ [] → extract_body_from_payload p = .ok (stripHtml (hp.headD ""))) ∧
    (tp = [] → hp = [] → extract_body_from_payload p = .ok "(No readable body found)") := by
  unfold extract_body_from_payload
  rw [hroot]
  simp only [Bool.false_eq_true, if_false]
  rw [hcol]
  refine ⟨?_, ?_, ?_⟩
  · intro htp
    cases tp with
    | nil => exact absurd rfl htp
    | cons t ts => rfl
  · intro htp hhp
    subst htp
    cases hp with
    | nil => exact absurd rfl hhp
    | cons h rest => rfl
  · intro h1 h2
    subst h1
    subst h2
    rfl

/-- Witness for `extract_selection_policy`: a container with only two html
children yields the stripped text of the first one only. -/
theorem extract_selection_policy_witness :
    truthy (Payload.mk (some "multipart/alternative") none
      [Payload.mk (some "text/html") (some "PGI+eGQ8L2I+") [] [],
       Payload.mk (some "text/html") (some "Yg==") [] []] []).data = false ∧
    collectLoop
        [Payload.mk (some "text/html") (some "PGI+eGQ8L2I+") [] [],
         Payload.mk (some "text/html") (some "Yg==") [] []] [] [] =
      .ok ([], ["<b>xd</b>", "b"]) ∧
    extract_body_from_payload
        (Payload.mk (some "multipart/alternative") none
          [Payload.mk (some "text/html") (some "PGI+eGQ8L2I+") [] [],
           Payload.mk (some "text/html") (some "Yg==") [] []] []) =
      .ok (stripHtml "<b>xd</b>") :=
  ⟨rfl, rfl,
   (extract_selection_policy
     (Payload.mk (some "multipart/alternative") none
       [Payload.mk (some "text/html") (some "PGI+eGQ8L2I+") [] [],
        Payload.mk (some "text/html") (some "Yg==") [] []] [])
     [] ["<b>xd</b>", "b"] rfl rfl).2.1 rfl (by decide)⟩

/-- `collectSubs` splits over list append. -/
theorem collectSubs_append (a b : List Payload) (tp hp : List String) :
    collectSubs (a ++ b) tp hp =
      match collectSubs a tp hp with
      | .error e => .error e
      | .ok (t, h) => collectSubs b t h := by
  induction a generalizing tp hp with
  | nil => rfl
  | cons s rest ih =>
    simp only [List.cons_append, collectSubs]
    cases addPart (s.mimeType.getD "") s.data tp hp with
    | error e => rfl
    | ok pr =>
      cases pr with
      | mk t h => exact ih t h

/-- C5 (amended): the buckets are filled in the order of a two-level
depth-first visit — each top-level part immediately followed by its direct
children — not level by level: running the flat inner loop over
`visitOrder parts` gives exactly the same buckets (and the same error, if
any) as the nested loops. -/
theorem bucket_order_matches_visit_order (parts : List Payload) (tp hp : List String) :
    collectLoop parts tp hp = collectSubs (visitOrder parts) tp hp := by
  induction parts generalizing tp hp with
  | nil => rfl
  | cons part rest ih =>
    show collectLoop (part :: rest) tp hp =
      collectSubs ((part :: part.parts) ++ visitOrder rest) tp hp
    simp only [List.cons_append, collectLoop, collectSubs]
    cases addPart (part.mimeType.getD "") part.data tp hp with
    | error e => rfl
    | ok pr =>
      cases pr with
      | mk t1 h1 =>
        show (match collectSubs part.parts t1 h1 with
              | .error e => .error e
              | .ok (tp2, hp2) => collectLoop rest tp2 hp2) =
            collectSubs (part.parts ++ visitOrder rest) t1 h1
        rw [collectSubs_append]
        cases collectSubs part.parts t1 h1 with
        | error e => rfl
        | ok pr2 =>
          cases pr2 with
          | mk t2 h2 => exact ih t2 h2

/-- C5 (counterexample): with a container child (holding a `text/plain`
grandchild) listed before a top-level `text/plain` part, the depth-two
text `"test"` enters the bucket **before** the depth-one text `"b"`, so
top-level entries do not all precede depth-two entries. -/
theorem bucket_order_cex :
    collectLoop
        [Payload.mk (some "multipart/mixed") none
          [Payload.mk (some "text/plain") (some "dGVzdA==") [] []] [],
         Payload.mk (some "text/plain") (some "Yg==") [] []] [] [] =
      .ok (["test", "b"], []) ∧
    extract_body_from_payload
        (Payload.mk none none
          [Payload.mk (some "multipart/mixed") none
            [Payload.mk (some "text/plain") (some "dGVzdA==") [] []] [],
           Payload.mk (some "text/plain") (some "Yg==") [] []] []) =
      .ok "test\n\nb" :=
  ⟨rfl, rfl⟩

/-- Pushing a cons through `getLast?.getD`: the head only matters when the
tail is empty. -/
theorem getLast?_cons_getD {α : Type} (v : α) (l : List α) (s : α) :
    (v :: l).getLast?.getD s = l.getLast?.getD v := by
  cases l with
  | nil => rfl
  | cons a as =>
    have hsome : ((a :: as).getLast?).isSome := by
      rw [List.getLast?_isSome]
      simp
    cases hv : (a :: as).getLast? with
    | none => rw [hv] at hsome; cases hsome
    | some x => simp [List.getLast?_cons_cons, hv]

/-- Characterization of the header fold: each of `subject`/`sender` is the
value of the last header matching its key case-insensitively (matching
headers without a value act as no-ops), or the given starting value if
there is none. -/
theorem headerFold_spec (headers : List Header) (s f : String) :
    headerFold headers s f =
      ((headerValuesFor "subject" headers).getLast?.getD s,
       (headerValuesFor "from" headers).getLast?.getD f) := by
  induction headers generalizing s f with
  | nil => rfl
  | cons h rest ih =>
    simp only [headerFold, headerValuesFor, List.filterMap_cons]
    by_cases hs : pyLower (h.name.getD "") = "subject"
    · have hf : ¬pyLower (h.name.getD "") = "from" := by rw [hs]; decide
      rw [if_pos hs, if_pos hs, if_neg hf]
      cases hv : h.value with
      | none =>
        simp only [Option.getD_none]
        exact ih s f
      | some v =>
        simp only [Option.getD_some]
        rw [ih v f]
        simp only [headerValuesFor]
        rw [getLast?_cons_getD]
    · by_cases hf : pyLower (h.name.getD "") = "from"
      · rw [if_neg hs, if_pos hf, if_neg hs, if_pos hf]
        cases hv : h.value with
        | none =>
          simp only [Option.getD_none]
          exact ih s f
        | some v =>
          simp only [Option.getD_some]
          rw [ih s v]
          simp only [headerValuesFor]
          rw [getLast?_cons_getD]
      · rw [if_neg hs, if_neg hf, if_neg hs, if_neg hf]
        exact ih s f

/-- C8: `Subject`/`From` are looked up case-insensitively; a missing header
leaves the default (`"(No Subject)"` / `"(Unknown Sender)"`), and a message
with no headers at all yields exactly the two defaults in its record. -/
theorem header_lookup_defaults :
    (∀ headers, extractHeaders headers =
       ((headerValuesFor "subject" headers).getLast?.getD "(No Subject)",
        (headerValuesFor "from" headers).getLast?.getD "(Unknown Sender)")) ∧
    extractHeaders [] = ("(No Subject)", "(Unknown Sender)") ∧
    (∀ (service : GmailService) (m : MsgStub) (r : EmailRec),
       ((service.getMessage m.id).payload.getD (Payload.mk none none [] [])).headers = [] →
       buildRecord service m = .ok r →
       r.subject = "(No Subject)" ∧ r.sender = "(Unknown Sender)") := by
  refine ⟨fun headers => headerFold_spec headers _ _, rfl, ?_⟩
  intro service m r hh hb
  unfold buildRecord at hb
  cases hx : extract_body_from_payload
      ((service.getMessage m.id).payload.getD (Payload.mk none none [] [])) with
  | error e => rw [hx] at hb; cases hb
  | ok body =>
    rw [hx] at hb
    cases hb
    simp only [hh]
    exact ⟨rfl, rfl⟩

/-- A collaborator whose single message has no headers at all. -/
def svcNoHeaders : GmailService :=
  ⟨fun _ => [⟨"e1"⟩], fun _ => ⟨some (Payload.mk none none [] []), none⟩⟩

/-- Witness for `header_lookup_defaults`: the record built for a message
with no headers carries exactly the two default strings. -/
theorem header_lookup_defaults_witness :
    ((svcNoHeaders.getMessage "e1").payload.getD (Payload.mk none none [] [])).headers = [] ∧
    buildRecord svcNoHeaders ⟨"e1"⟩ =
      .ok ⟨"e1", "(No Subject)", "(Unknown Sender)", "(No readable body found)", ""⟩ ∧
    (⟨"e1", "(No Subject)", "(Unknown Sender)", "(No readable body found)", ""⟩ :
        EmailRec).subject = "(No Subject)" ∧
    (⟨"e1", "(No Subject)", "(Unknown Sender)", "(No readable body found)", ""⟩ :
        EmailRec).sender = "(Unknown Sender)" :=
  ⟨rfl, rfl, header_lookup_defaults.2.2 svcNoHeaders ⟨"e1"⟩ _ rfl rfl⟩

/-- C9: when several headers match `Subject` (resp. `From`)
case-insensitively, the assembled values use the **last** match carrying a
value: every later match overwrites the earlier one. -/
theorem header_last_match_wins :
    (∀ (pre post : List Header) (nm v : String), pyLower nm = "subject" →
       (∀ h ∈ post, pyLower (h.name.getD "") ≠ "subject" ∨ h.value = none) →
       (extractHeaders (pre ++ ⟨some nm, some v⟩ :: post)).1 = v) ∧
    (∀ (pre post : List Header) (nm v : String), pyLower nm = "from" →
       (∀ h ∈ post, pyLower (h.name.getD "") ≠ "from" ∨ h.value = none) →
       (extractHeaders (pre ++ ⟨some nm, some v⟩ :: post)).2 = v) := by
  constructor
  · intro pre post nm v hnm hpost
    rw [extractHeaders, headerFold_spec]
    have hpost' : headerValuesFor "subject" post = [] := by
      rw [headerValuesFor, List.filterMap_eq_nil_iff]
      intro h hmem
      rcases hpost h hmem with hn | hv
      · rw [if_neg hn]
      · rw [hv]
        split <;> rfl
    have hsplit : headerValuesFor "subject" (pre ++ ⟨some nm, some v⟩ :: post) =
        headerValuesFor "subject" pre ++ [v] := by
      rw [headerValuesFor, List.filterMap_append, List.filterMap_cons]
      simp only [Header.name, Option.getD_some, hnm, if_pos]
      rw [show List.filterMap
          (fun h => if pyLower (h.name.getD "") = "subject" then h.value else none) post = []
        from hpost']
      rfl
    rw [hsplit, List.getLast?_concat]
    rfl
  · intro pre post nm v hnm hpost
    rw [extractHeaders, headerFold_spec]
    have hpost' : headerValuesFor "from" post = [] := by
      rw [headerValuesFor, List.filterMap_eq_nil_iff]
      intro h hmem
      rcases hpost h hmem with hn | hv
      · rw [if_neg hn]
      · rw [hv]
        split <;> rfl
    have hsplit : headerValuesFor "from" (pre ++ ⟨some nm, some v⟩ :: post) =
        headerValuesFor "from" pre ++ [v] := by
      rw [headerValuesFor, List.filterMap_append, List.filterMap_cons]
      simp only [Header.name, Option.getD_some, hnm, if_pos]
      rw [show List.filterMap
          (fun h => if pyLower (h.name.getD "") = "from" then h.value else none) post = []
        from hpost']
      rfl
    rw [hsplit, List.getLast?_concat]
    rfl

/-- Witness for `header_last_match_wins`: with `Subject: first` followed by
`SUBJECT: second`, the record keeps `"second"`. -/
theorem header_last_match_wins_witness :
    pyLower "SUBJECT" = "subject" ∧
    (extractHeaders [⟨some "Subject", some "first"⟩, ⟨some "SUBJECT", some "second"⟩]).1 =
      "second" :=
  ⟨by decide,
   header_last_match_wins.1 [⟨some "Subject", some "first"⟩] [] "SUBJECT" "second"
     (by decide) (by simp)⟩

/-- The URL-safe translation maps nothing else to the padding character. -/
theorem urlsafeToStd_pad_eq (c : Char) : (urlsafeToStd c == '=') = (c == '=') := by
  by_cases h1 : c = '-'
  · subst h1; decide
  · by_cases h2 : c = '_'
    · subst h2; decide
    · rw [urlsafeToStd, if_neg h1, if_neg h2]

/-- Unfolding of the `a2b_base64` loop at a padding character. -/
theorem a2bBase64_cons_pad (rest : List Char) (q lc p : Nat) (out : List Nat) :
    a2bBase64 ('=' :: rest) q lc p out =
      if 2 ≤ q then
        if 4 ≤ q + (p + 1) then .ok out.reverse
        else a2bBase64 rest q lc (p + 1) out
      else a2bBase64 rest q lc p out := rfl

/-- Unfolding of the `a2b_base64` loop at an alphabet character. -/
theorem a2bBase64_cons_digit (c : Char) (rest : List Char) (q lc p v : Nat)
    (out : List Nat) (hc : c ≠ '=') (hv : b64CharVal c = some v) :
    a2bBase64 (c :: rest) q lc p out =
      match q with
      | 0 => a2bBase64 rest 1 v 0 out
      | 1 => a2bBase64 rest 2 (v % 16) 0 ((lc * 4 + v / 16) :: out)
      | 2 => a2bBase64 rest 3 (v % 4) 0 ((lc * 16 + v / 4) :: out)
      | _ => a2bBase64 rest 0 0 0 ((lc * 64 + v) :: out) := by
  simp only [a2bBase64, if_neg hc, hv]

/-- Unfolding of the `a2b_base64` loop at a discarded character. -/
theorem a2bBase64_cons_skip (c : Char) (rest : List Char) (q lc p : Nat)
    (out : List Nat) (hc : c ≠ '=') (hv : b64CharVal c = none) :
    a2bBase64 (c :: rest) q lc p out = a2bBase64 rest q lc p out := by
  simp only [a2bBase64, if_neg hc, hv]

/-- The `a2b_base64` loop ignores characters that are neither alphabet
characters nor padding: filtering them away first does not change the
result, whatever the starting state. -/
theorem a2b_skip (l : List Char) (q lc p : Nat) (out : List Nat) :
    a2bBase64 (l.filter fun c => (b64CharVal c).isSome || c == '=') q lc p out =
      a2bBase64 l q lc p out := by
  induction l generalizing q lc p out with
  | nil => rfl
  | cons c rest ih =>
    by_cases hc : c = '='
    · subst hc
      rw [List.filter_cons_of_pos (by rfl)]
      rw [a2bBase64_cons_pad, a2bBase64_cons_pad]
      by_cases h2 : 2 ≤ q
      · rw [if_pos h2, if_pos h2]
        by_cases h4 : 4 ≤ q + (p + 1)
        · rw [if_pos h4, if_pos h4]
        · rw [if_neg h4, if_neg h4]
          exact ih q lc (p + 1) out
      · rw [if_neg h2, if_neg h2]
        exact ih q lc p out
    · cases hv : b64CharVal c with
      | none =>
        rw [List.filter_cons_of_neg (by simp [hv, hc])]
        rw [ih, a2bBase64_cons_skip c rest q lc p out hc hv]
      | some v =>
        rw [List.filter_cons_of_pos (by simp [hv])]
        rw [a2bBase64_cons_digit c _ q lc p v _ hc hv,
          a2bBase64_cons_digit c rest q lc p v out hc hv]
        match q with
        | 0 => exact ih 1 v 0 out
        | 1 => exact ih 2 (v % 16) 0 ((lc * 4 + v / 16) :: out)
        | 2 => exact ih 3 (v % 4) 0 ((lc * 16 + v / 4) :: out)
        | (n + 3) => exact ih 0 0 0 ((lc * 64 + v) :: out)

/-- `_decode_part` is insensitive to characters outside the (URL-safe)
base64 alphabet and padding: they are discarded, never an error source. -/
theorem decode_part_discards_nonalphabet (data : String) :
    decode_part data = decode_part (String.mk (data.toList.filter isB64Relevant)) := by
  by_cases hd : data = ""
  · subst hd; rfl
  · have hdec : urlsafeB64Decode (data.toList.filter isB64Relevant) =
        urlsafeB64Decode data.toList := by
      rw [urlsafeB64Decode, urlsafeB64Decode]
      have hmapfilter : (data.toList.filter isB64Relevant).map urlsafeToStd =
          (data.toList.map urlsafeToStd).filter
            (fun c => (b64CharVal c).isSome || c == '=') := by
        rw [List.filter_map]
        congr 1
        apply List.filter_congr
        intro c _
        show isB64Relevant c =
          ((b64CharVal (urlsafeToStd c)).isSome || (urlsafeToStd c == '='))
        rw [isB64Relevant, urlsafeToStd_pad_eq]
      rw [hmapfilter, a2b_skip]
    by_cases hflt : String.mk (data.toList.filter isB64Relevant) = ""
    · have hnil : data.toList.filter isB64Relevant = [] := by
        have := congrArg String.toList hflt
        simpa using this
      rw [hnil] at hdec
      have hok : urlsafeB64Decode data.toList = .ok [] := by
        rw [← hdec]; rfl
      rw [decode_part, if_neg hd, hok, hflt]
      rfl
    · rw [decode_part, if_neg hd]
      conv_rhs => rw [decode_part, if_neg hflt]
      rw [show (String.mk (data.toList.filter isB64Relevant)).toList =
        data.toList.filter isB64Relevant from rfl]
      rw [hdec]

/-- C1 (amended): empty or absent input yields the empty string and
non-alphabet characters are silently discarded abortion-free, but
malformed **padding** is not masked: `base64.urlsafe_b64decode` raises
`binascii.Error`, which `_decode_part` propagates to its caller. -/
theorem decode_part_error_contract :
    decode_part "" = .ok "" ∧
    (∀ data : String,
       decode_part data = decode_part (String.mk (data.toList.filter isB64Relevant))) ∧
    decode_part "ab" = .error "Incorrect padding" :=
  ⟨rfl, decode_part_discards_nonalphabet, rfl⟩

/-- C1 (counterexample): the two-character input `"ab"` is malformed base64
(wrong padding); `_decode_part` does **not** return the empty string but
propagates the `binascii.Error` (here: its `"Incorrect padding"` message). -/
theorem decode_part_raises_cex : decode_part "ab" = .error "Incorrect padding" := rfl

/-! ## Round trip: `_decode_part` is a left inverse of URL-safe base64
encoding of UTF-8 text (claim C6) -/

/-- Encoding then URL-safe-translating a 6-bit value and translating back
recovers an alphabet character with that value. -/
theorem b64_g_char : ∀ v : Nat, v < 64 →
    b64CharVal (urlsafeToStd (stdToUrlsafe (b64Char v))) = some v := by decide

/-- The doubly-translated alphabet character is never the padding
character. -/
theorem b64_g_char_ne_pad : ∀ v : Nat, v < 64 →
    urlsafeToStd (stdToUrlsafe (b64Char v)) ≠ '=' := by decide

/-- The padding character is untouched by both translations. -/
theorem b64_g_pad : urlsafeToStd (stdToUrlsafe '=') = '=' := rfl

/-- `a2b_base64` digit step from quad position 0. -/
theorem a2b_digit0 (c : Char) (rest : List Char) (lc p v : Nat) (out : List Nat)
    (hc : c ≠ '=') (hv : b64CharVal c = some v) :
    a2bBase64 (c :: rest) 0 lc p out = a2bBase64 rest 1 v 0 out := by
  rw [a2bBase64_cons_digit c rest 0 lc p v out hc hv]

/-- `a2b_base64` digit step from quad position 1: the first output byte of
the group is complete. -/
theorem a2b_digit1 (c : Char) (rest : List Char) (lc p v : Nat) (out : List Nat)
    (hc : c ≠ '=') (hv : b64CharVal c = some v) :
    a2bBase64 (c :: rest) 1 lc p out =
      a2bBase64 rest 2 (v % 16) 0 ((lc * 4 + v / 16) :: out) := by
  rw [a2bBase64_cons_digit c rest 1 lc p v out hc hv]

/-- `a2b_base64` digit step from quad position 2. -/
theorem a2b_digit2 (c : Char) (rest : List Char) (lc p v : Nat) (out : List Nat)
    (hc : c ≠ '=') (hv : b64CharVal c = some v) :
    a2bBase64 (c :: rest) 2 lc p out =
      a2bBase64 rest 3 (v % 4) 0 ((lc * 16 + v / 4) :: out) := by
  rw [a2bBase64_cons_digit c rest 2 lc p v out hc hv]

/-- `a2b_base64` digit step from quad position 3: the group is complete. -/
theorem a2b_digit3 (c : Char) (rest : List Char) (lc p v : Nat) (out : List Nat)
    (hc : c ≠ '=') (hv : b64CharVal c = some v) :
    a2bBase64 (c :: rest) 3 lc p out =
      a2bBase64 rest 0 0 0 ((lc * 64 + v) :: out) := by
  rw [a2bBase64_cons_digit c rest 3 lc p v out hc hv]

/-- Core of the base64 round trip: running the decoding loop on the
(URL-safe) encoding of a byte list appends exactly those bytes to the
output accumulator. -/
theorem a2b_on_encoded (bs : List Nat) :
    (∀ b ∈ bs, b < 256) → ∀ out : List Nat,
    a2bBase64 ((b64EncodeBytes bs).map fun c => urlsafeToStd (stdToUrlsafe c))
        0 0 0 out = .ok (out.reverse ++ bs) := by
  induction bs using b64EncodeBytes.induct with
  | case4 =>
    intro h out
    show a2bBase64 [] 0 0 0 out = .ok (out.reverse ++ [])
    rw [List.append_nil]
    rfl
  | case3 b1 =>
    intro h out
    have hb1 : b1 < 256 := h b1 (by simp)
    have h1 : b1 / 4 < 64 := by omega
    have h2 : b1 % 4 * 16 < 64 := by omega
    rw [b64EncodeBytes]
    simp only [List.map_cons, List.map_nil]
    rw [a2b_digit0 _ _ _ _ _ _ (b64_g_char_ne_pad _ h1) (b64_g_char _ h1)]
    rw [a2b_digit1 _ _ _ _ _ _ (b64_g_char_ne_pad _ h2) (b64_g_char _ h2)]
    rw [show b1 / 4 * 4 + b1 % 4 * 16 / 16 = b1 from by omega]
    rw [b64_g_pad, a2bBase64_cons_pad, if_pos (by omega : 2 ≤ 2),
      if_neg (by omega : ¬4 ≤ 2 + (0 + 1))]
    rw [a2bBase64_cons_pad, if_pos (by omega : 2 ≤ 2),
      if_pos (by omega : 4 ≤ 2 + (1 + 1))]
    simp
  | case2 b1 b2 =>
    intro h out
    have hb1 : b1 < 256 := h b1 (by simp)
    have hb2 : b2 < 256 := h b2 (by simp)
    have h1 : b1 / 4 < 64 := by omega
    have h2 : b1 % 4 * 16 + b2 / 16 < 64 := by omega
    have h3 : b2 % 16 * 4 < 64 := by omega
    rw [b64EncodeBytes]
    simp only [List.map_cons, List.map_nil]
    rw [a2b_digit0 _ _ _ _ _ _ (b64_g_char_ne_pad _ h1) (b64_g_char _ h1)]
    rw [a2b_digit1 _ _ _ _ _ _ (b64_g_char_ne_pad _ h2) (b64_g_char _ h2)]
    rw [show b1 / 4 * 4 + (b1 % 4 * 16 + b2 / 16) / 16 = b1 from by omega]
    rw [show (b1 % 4 * 16 + b2 / 16) % 16 = b2 / 16 from by omega]
    rw [a2b_digit2 _ _ _ _ _ _ (b64_g_char_ne_pad _ h3) (b64_g_char _ h3)]
    rw [show b2 / 16 * 16 + b2 % 16 * 4 / 4 = b2 from by omega]
    rw [b64_g_pad, a2bBase64_cons_pad, if_pos (by omega : 2 ≤ 3),
      if_pos (by omega : 4 ≤ 3 + (0 + 1))]
    simp
  | case1 b1 b2 b3 rest ih =>
    intro h out
    have hb1 : b1 < 256 := h b1 (by simp)
    have hb2 : b2 < 256 := h b2 (by simp)
    have hb3 : b3 < 256 := h b3 (by simp)
    have hrest : ∀ b ∈ rest, b < 256 := fun b hb => h b (by simp [hb])
    have h1 : b1 / 4 < 64 := by omega
    have h2 : b1 % 4 * 16 + b2 / 16 < 64 := by omega
    have h3 : b2 % 16 * 4 + b3 / 64 < 64 := by omega
    have h4 : b3 % 64 < 64 := by omega
    rw [b64EncodeBytes]
    simp only [List.map_cons]
    rw [a2b_digit0 _ _ _ _ _ _ (b64_g_char_ne_pad _ h1) (b64_g_char _ h1)]
    rw [a2b_digit1 _ _ _ _ _ _ (b64_g_char_ne_pad _ h2) (b64_g_char _ h2)]
    rw [show b1 / 4 * 4 + (b1 % 4 * 16 + b2 / 16) / 16 = b1 from by omega]
    rw [show (b1 % 4 * 16 + b2 / 16) % 16 = b2 / 16 from by omega]
    rw [a2b_digit2 _ _ _ _ _ _ (b64_g_char_ne_pad _ h3) (b64_g_char _ h3)]
    rw [show b2 / 16 * 16 + (b2 % 16 * 4 + b3 / 64) / 4 = b2 from by omega]
    rw [show (b2 % 16 * 4 + b3 / 64) % 4 = b3 / 64 from by omega]
    rw [a2b_digit3 _ _ _ _ _ _ (b64_g_char_ne_pad _ h4) (b64_g_char _ h4)]
    rw [show b3 / 64 * 64 + b3 % 64 = b3 from by omega]
    rw [ih hrest (b3 :: b2 :: b1 :: out)]
    simp

/-- URL-safe base64 decoding is a left inverse of URL-safe base64 encoding
on byte lists. -/
theorem urlsafeB64_roundtrip (bs : List Nat) (h : ∀ b ∈ bs, b < 256) :
    urlsafeB64Decode (urlsafeB64Encode bs) = .ok bs := by
  rw [urlsafeB64Decode, urlsafeB64Encode, List.map_map]
  have := a2b_on_encoded bs h []
  simpa [Function.comp] using this

/-- Unfolding of the UTF-8 decoding loop at a byte. -/
theorem utf8Aux_cons (st : Utf8State) (b : Nat) (bs : List Nat) :
    utf8DecodeIgnoreAux st (b :: bs) =
      (utf8Step st b).1 ++ utf8DecodeIgnoreAux (utf8Step st b).2 bs := rfl

/-- In start state the step defers to `utf8StepStart`. -/
theorem utf8Step_start (v0 l0 h0 b : Nat) :
    utf8Step ⟨0, v0, l0, h0⟩ b = utf8StepStart b := rfl

/-- `utf8StepStart` on an ASCII byte. -/
theorem utf8StepStart_ascii (b : Nat) (h : b < 0x80) :
    utf8StepStart b = ([Char.ofNat b], ⟨0, 0, 0, 0⟩) := by
  rw [utf8StepStart, if_pos h]

/-- `utf8StepStart` on a two-byte lead byte. -/
theorem utf8StepStart_two (b : Nat) (h1 : 0xC2 ≤ b) (h2 : b < 0xE0) :
    utf8StepStart b = ([], ⟨1, b - 0xC0, 0x80, 0xBF⟩) := by
  rw [utf8StepStart, if_neg (by omega), if_neg (by omega), if_pos h2]

/-- `utf8StepStart` on a three-byte lead byte. -/
theorem utf8StepStart_three (b : Nat) (h1 : 0xE0 ≤ b) (h2 : b < 0xF0) :
    utf8StepStart b =
      ([], ⟨2, b - 0xE0, if b = 0xE0 then 0xA0 else 0x80,
            if b = 0xED then 0x9F else 0xBF⟩) := by
  rw [utf8StepStart, if_neg (by omega), if_neg (by omega), if_neg (by omega), if_pos h2]

/-- `utf8StepStart` on a four-byte lead byte. -/
theorem utf8StepStart_four (b : Nat) (h1 : 0xF0 ≤ b) (h2 : b < 0xF5) :
    utf8StepStart b =
      ([], ⟨3, b - 0xF0, if b = 0xF0 then 0x90 else 0x80,
            if b = 0xF4 then 0x8F else 0xBF⟩) := by
  rw [utf8StepStart, if_neg (by omega), if_neg (by omega), if_neg (by omega),
    if_neg (by omega), if_pos h2]

/-- A valid final continuation byte completes the character. -/
theorem utf8Step_cont1 (val lo hi b : Nat) (hlo : lo ≤ b) (hhi : b ≤ hi) :
    utf8Step ⟨1, val, lo, hi⟩ b =
      ([Char.ofNat (val * 64 + (b - 0x80))], ⟨0, 0, 0, 0⟩) := by
  simp only [utf8Step]
  simp [hlo, hhi]

/-- A valid continuation byte with two more expected. -/
theorem utf8Step_cont2 (val lo hi b : Nat) (hlo : lo ≤ b) (hhi : b ≤ hi) :
    utf8Step ⟨2, val, lo, hi⟩ b =
      ([], ⟨1, val * 64 + (b - 0x80), 0x80, 0xBF⟩) := by
  simp only [utf8Step]
  simp [hlo, hhi]

/-- A valid continuation byte with three more expected. -/
theorem utf8Step_cont3 (val lo hi b : Nat) (hlo : lo ≤ b) (hhi : b ≤ hi) :
    utf8Step ⟨3, val, lo, hi⟩ b =
      ([], ⟨2, val * 64 + (b - 0x80), 0x80, 0xBF⟩) := by
  simp only [utf8Step]
  simp [hlo, hhi]

/-- Decoding the UTF-8 encoding of one character emits exactly that
character and leaves the decoder back in start state. -/
theorem utf8_decode_encodeChar (c : Char) (rest : List Nat) :
    utf8DecodeIgnoreAux ⟨0, 0, 0, 0⟩ (utf8EncodeChar c ++ rest) =
      c :: utf8DecodeIgnoreAux ⟨0, 0, 0, 0⟩ rest := by
  have hvalid : c.toNat < 0xD800 ∨ (0xDFFF < c.toNat ∧ c.toNat < 0x110000) := c.valid
  have hup : c.toNat < 0x110000 := by omega
  by_cases h1 : c.toNat < 0x80
  · rw [show utf8EncodeChar c = [c.toNat] from by rw [utf8EncodeChar]; simp [h1]]
    rw [List.cons_append, List.nil_append, utf8Aux_cons, utf8Step_start,
      utf8StepStart_ascii _ h1]
    simp [Char.ofNat_toNat]
  · by_cases h2 : c.toNat < 0x800
    · rw [show utf8EncodeChar c = [0xC0 + c.toNat / 64, 0x80 + c.toNat % 64] from by
        rw [utf8EncodeChar]; simp [h1, h2]]
      rw [List.cons_append, List.cons_append, List.nil_append]
      rw [utf8Aux_cons, utf8Step_start, utf8StepStart_two _ (by omega) (by omega)]
      dsimp only
      rw [utf8Aux_cons, utf8Step_cont1 _ _ _ _ (by omega) (by omega)]
      dsimp only
      simp only [List.nil_append, List.singleton_append]
      conv_rhs => rw [← Char.ofNat_toNat c]
      refine congrArg₂ List.cons (congrArg Char.ofNat (by omega)) rfl
    · by_cases h3 : c.toNat < 0x10000
      · rw [show utf8EncodeChar c =
            [0xE0 + c.toNat / 4096, 0x80 + c.toNat / 64 % 64, 0x80 + c.toNat % 64] from by
          rw [utf8EncodeChar]; simp [h1, h2, h3]]
        rw [List.cons_append, List.cons_append, List.cons_append, List.nil_append]
        rw [utf8Aux_cons, utf8Step_start, utf8StepStart_three _ (by omega) (by omega)]
        by_cases hE0 : 0xE0 + c.toNat / 4096 = 0xE0
        · rw [if_pos hE0, if_neg (by omega)]
          dsimp only
          rw [utf8Aux_cons, utf8Step_cont2 _ _ _ _ (by omega) (by omega)]
          dsimp only
          rw [utf8Aux_cons, utf8Step_cont1 _ _ _ _ (by omega) (by omega)]
          dsimp only
          simp only [List.nil_append, List.singleton_append]
          conv_rhs => rw [← Char.ofNat_toNat c]
          refine congrArg₂ List.cons (congrArg Char.ofNat (by omega)) rfl
        · by_cases hED : 0xE0 + c.toNat / 4096 = 0xED
          · rw [if_neg hE0, if_pos hED]
            dsimp only
            rw [utf8Aux_cons, utf8Step_cont2 _ _ _ _ (by omega) (by omega)]
            dsimp only
            rw [utf8Aux_cons, utf8Step_cont1 _ _ _ _ (by omega) (by omega)]
            dsimp only
            simp only [List.nil_append, List.singleton_append]
            conv_rhs => rw [← Char.ofNat_toNat c]
            refine congrArg₂ List.cons (congrArg Char.ofNat (by omega)) rfl
          · rw [if_neg hE0, if_neg hED]
            dsimp only
            rw [utf8Aux_cons, utf8Step_cont2 _ _ _ _ (by omega) (by omega)]
            dsimp only
            rw [utf8Aux_cons, utf8Step_cont1 _ _ _ _ (by omega) (by omega)]
            dsimp only
            simp only [List.nil_append, List.singleton_append]
            conv_rhs => rw [← Char.ofNat_toNat c]
            refine congrArg₂ List.cons (congrArg Char.ofNat (by omega)) rfl
      · rw [show utf8EncodeChar c =
            [0xF0 + c.toNat / 262144, 0x80 + c.toNat / 4096 % 64,
             0x80 + c.toNat / 64 % 64, 0x80 + c.toNat % 64] from by
          rw [utf8EncodeChar]; simp [h1, h2, h3]]
        rw [List.cons_append, List.cons_append, List.cons_append, List.cons_append,
          List.nil_append]
        rw [utf8Aux_cons, utf8Step_start, utf8StepStart_four _ (by omega) (by omega)]
        by_cases hF0 : 0xF0 + c.toNat / 262144 = 0xF0
        · rw [if_pos hF0, if_neg (by omega)]
          dsimp only
          rw [utf8Aux_cons, utf8Step_cont3 _ _ _ _ (by omega) (by omega)]
          dsimp only
          rw [utf8Aux_cons, utf8Step_cont2 _ _ _ _ (by omega) (by omega)]
          dsimp only
          rw [utf8Aux_cons, utf8Step_cont1 _ _ _ _ (by omega) (by omega)]
          dsimp only
          simp only [List.nil_append, List.singleton_append]
          conv_rhs => rw [← Char.ofNat_toNat c]
          refine congrArg₂ List.cons (congrArg Char.ofNat (by omega)) rfl
        · by_cases hF4 : 0xF0 + c.toNat / 262144 = 0xF4
          · rw [if_neg hF0, if_pos hF4]
            dsimp only
            rw [utf8Aux_cons, utf8Step_cont3 _ _ _ _ (by omega) (by omega)]
            dsimp only
            rw [utf8Aux_cons, utf8Step_cont2 _ _ _ _ (by omega) (by omega)]
            dsimp only
            rw [utf8Aux_cons, utf8Step_cont1 _ _ _ _ (by omega) (by omega)]
            dsimp only
            simp only [List.nil_append, List.singleton_append]
            conv_rhs => rw [← Char.ofNat_toNat c]
            refine congrArg₂ List.cons (congrArg Char.ofNat (by omega)) rfl
          · rw [if_neg hF0, if_neg hF4]
            dsimp only
            rw [utf8Aux_cons, utf8Step_cont3 _ _ _ _ (by omega) (by omega)]
            dsimp only
            rw [utf8Aux_cons, utf8Step_cont2 _ _ _ _ (by omega) (by omega)]
            dsimp only
            rw [utf8Aux_cons, utf8Step_cont1 _ _ _ _ (by omega) (by omega)]
            dsimp only
            simp only [List.nil_append, List.singleton_append]
            conv_rhs => rw [← Char.ofNat_toNat c]
            refine congrArg₂ List.cons (congrArg Char.ofNat (by omega)) rfl

/-- Decoding the UTF-8 encoding of a character list recovers it exactly. -/
theorem utf8Aux_roundtrip (l : List Char) :
    utf8DecodeIgnoreAux ⟨0, 0, 0, 0⟩ (utf8Encode l) = l := by
  induction l with
  | nil => rfl
  | cons c cl ih =>
    rw [show utf8Encode (c :: cl) = utf8EncodeChar c ++ utf8Encode cl from rfl]
    rw [utf8_decode_encodeChar, ih]

/-- Every byte produced by the UTF-8 encoder of one character is a byte. -/
theorem utf8EncodeChar_lt (c : Char) : ∀ b ∈ utf8EncodeChar c, b < 256 := by
  have hvalid : c.toNat < 0xD800 ∨ (0xDFFF < c.toNat ∧ c.toNat < 0x110000) := c.valid
  have hup : c.toNat < 0x110000 := by omega
  intro b hb
  simp only [utf8EncodeChar] at hb
  split at hb
  · simp at hb; omega
  · split at hb
    · simp at hb; rcases hb with h | h <;> omega
    · split at hb
      · simp at hb; rcases hb with h | h | h <;> omega
      · simp at hb; rcases hb with h | h | h | h <;> omega

/-- Every byte produced by the UTF-8 encoder is a byte. -/
theorem utf8Encode_lt (l : List Char) : ∀ b ∈ utf8Encode l, b < 256 := by
  intro b hb
  rw [utf8Encode] at hb
  rcases List.mem_flatMap.mp hb with ⟨c, _, hbc⟩
  exact utf8EncodeChar_lt c b hbc

/-- The UTF-8 encoding of a character is never empty. -/
theorem utf8EncodeChar_ne_nil (c : Char) : utf8EncodeChar c ≠ [] := by
  simp only [utf8EncodeChar]
  split
  · simp
  · split
    · simp
    · split <;> simp

/-- The UTF-8 encoding of a non-empty character list is non-empty. -/
theorem utf8Encode_ne_nil (l : List Char) (h : l ≠ []) : utf8Encode l ≠ [] := by
  cases l with
  | nil => exact absurd rfl h
  | cons c cl =>
    rw [show utf8Encode (c :: cl) = utf8EncodeChar c ++ utf8Encode cl from rfl]
    simp [utf8EncodeChar_ne_nil c]

/-- The base64 encoding of a non-empty byte list is non-empty. -/
theorem b64EncodeBytes_ne_nil (bs : List Nat) (h : bs ≠ []) : b64EncodeBytes bs ≠ [] := by
  match bs with
  | [] => exact absurd rfl h
  | [b1] => simp [b64EncodeBytes]
  | [b1, b2] => simp [b64EncodeBytes]
  | b1 :: b2 :: b3 :: rest => simp [b64EncodeBytes]

/-- C6: for every string `s`, `_decode_part` applied to the URL-safe base64
encoding of the UTF-8 encoding of `s` returns exactly `s`: decode is a left
inverse of encode. -/
theorem decode_part_left_inverse (s : String) :
    decode_part (String.mk (urlsafeB64Encode (utf8Encode s.toList))) = .ok s := by
  by_cases hs : s = ""
  · subst hs; rfl
  · have hlist : s.toList ≠ [] := by
      intro hnil
      apply hs
      apply String.ext
      rw [show s.data = s.toList from rfl, hnil]
    have hbytes : utf8Encode s.toList ≠ [] := utf8Encode_ne_nil _ hlist
    have hchars : urlsafeB64Encode (utf8Encode s.toList) ≠ [] := by
      rw [urlsafeB64Encode]
      intro hmapnil
      exact b64EncodeBytes_ne_nil _ hbytes (List.map_eq_nil_iff.mp hmapnil)
    have hne : String.mk (urlsafeB64Encode (utf8Encode s.toList)) ≠ "" := by
      intro hmk
      apply hchars
      have := congrArg String.toList hmk
      simpa using this
    rw [decode_part, if_neg hne]
    rw [show (String.mk (urlsafeB64Encode (utf8Encode s.toList))).toList =
      urlsafeB64Encode (utf8Encode s.toList) from rfl]
    rw [urlsafeB64_roundtrip _ (utf8Encode_lt s.toList)]
    show Except.ok (String.mk (utf8DecodeIgnore (utf8Encode s.toList))) = .ok s
    rw [utf8DecodeIgnore, utf8Aux_roundtrip]
    rfl

end GmailCore
